import Mathlib

/-!
Verification of the claude-bridge automation helper (src/automation_helper.py)
against its natural-language specification.

Each Python component used by the claims is shallowly embedded as an
executable Lean definition, translated from the source:
  - ErrorHandler.classify_error        → classifyError
  - AutomationConfig._apply_config     → applyConfig / loadConfig
  - ProposalExecutor.execute_step / execute_all_steps
                                       → executeStep / executeAllSteps
  - ProposalExecutor.create_backup / apply_code_file
                                       → createBackup / applyCodeFile
  - DesktopLauncher.launch_with_retry  → launchWithRetry
  - ResponseMonitor.wait_for_response  → waitForResponse
  - ResponseMonitor.read_response      → readResponse
  - AutomatedBridge.run_automated_workflow
                                       → runAutomatedWorkflow
  - CheckpointManager.rollback         → rollback
  - CheckpointManager.list_checkpoints → listCheckpoints

External effects (clock, filesystem, subprocess outcomes) are passed in as
explicit oracle functions; Python dynamic values are modelled by the
inductive type PyVal.
-/

namespace ClaudeBridge

/-! ## Python value model -/

/-- A Python value as far as the config loader inspects it: booleans,
integers, floats (modelled as rationals), strings, and anything else. -/
inductive PyVal : Type where
  | pbool (b : Bool)
  | pint (n : Int)
  | pfloat (q : Rat)
  | pstr (s : String)
  | pother
deriving DecidableEq, Repr

/-- Python isinstance(v, bool). -/
def PyVal.isBoolV : PyVal → Bool
  | .pbool _ => true
  | _ => false

/-- Python isinstance(v, int): bool is a subclass of int, so booleans pass. -/
def PyVal.isIntV : PyVal → Bool
  | .pbool _ => true
  | .pint _ => true
  | _ => false

/-- Python isinstance(v, (int, float)). -/
def PyVal.isNumV : PyVal → Bool
  | .pbool _ => true
  | .pint _ => true
  | .pfloat _ => true
  | _ => false

/-- Python isinstance(v, str). -/
def PyVal.isStrV : PyVal → Bool
  | .pstr _ => true
  | _ => false

/-- Numeric value of a Python number (True counts as 1, False as 0). -/
def PyVal.numV : PyVal → Rat
  | .pbool b => if b then 1 else 0
  | .pint n => (n : Rat)
  | .pfloat q => q
  | _ => 0

/-! ## Substring test (Python's `needle in haystack`) -/

/-- Whether the first character list starts the second one. -/
def startsWithChars : List Char → List Char → Bool
  | [], _ => true
  | _ :: _, [] => false
  | a :: as, b :: bs => a == b && startsWithChars as bs

/-- Whether the first character list occurs contiguously in the second. -/
def hasSubChars (n : List Char) : List Char → Bool
  | [] => n.isEmpty
  | b :: bs => startsWithChars n (b :: bs) || hasSubChars n bs

/-- Python's substring containment test `needle in haystack`. -/
def strContains (haystack needle : String) : Bool :=
  hasSubChars needle.data haystack.data

/-! ## ErrorHandler.classify_error -/

/-- The Python exception class of the error handed to classify_error,
restricted to the classes the function distinguishes. -/
inductive ExcClass : Type where
  | systemError
  | memoryError
  | keyboardInterrupt
  | connectionError
  | timeoutError
  | fileNotFoundError
  | permissionError
  | ioError
  | osError
  | jsonDecodeError
  | valueError
  | typeError
  | otherExc
deriving DecidableEq, Repr

/-- isinstance(error, (SystemError, MemoryError, KeyboardInterrupt)). -/
def ExcClass.isCriticalClass : ExcClass → Bool
  | .systemError | .memoryError | .keyboardInterrupt => true
  | _ => false

/-- isinstance(error, (ConnectionError, TimeoutError)). -/
def ExcClass.isNetworkClass : ExcClass → Bool
  | .connectionError | .timeoutError => true
  | _ => false

/-- isinstance(error, (FileNotFoundError, PermissionError, IOError, OSError)):
ConnectionError and TimeoutError are OSError subclasses in Python, so they
also pass this check (though the earlier network rule already caught them). -/
def ExcClass.isFileIOClass : ExcClass → Bool
  | .fileNotFoundError | .permissionError | .ioError | .osError => true
  | .connectionError | .timeoutError => true
  | _ => false

/-- The name check error.__class__.__name__ in ['JSONDecodeError', ...]. -/
def ExcClass.isJsonDecodeName : ExcClass → Bool
  | .jsonDecodeError => true
  | _ => false

/-- isinstance(error, (ValueError, TypeError)): JSONDecodeError subclasses
ValueError in Python, so it also passes (unreachable after the name check). -/
def ExcClass.isValueClass : ExcClass → Bool
  | .valueError | .typeError | .jsonDecodeError => true
  | _ => false

/-- ErrorHandler.classify_error (automation_helper.py lines 1148-1196),
translated check for check in source order. -/
def classifyError (error : ExcClass) (context : String) : String :=
  if strContains context "system_crash" || strContains context "critical" then
    "critical"
  else if error.isCriticalClass then
    "critical"
  else if error.isNetworkClass then
    "recoverable"
  else if strContains context "network" || strContains context "timeout" then
    "recoverable"
  else if error.isFileIOClass then
    "recoverable"
  else if strContains context "file_operation" || context == "io" then
    "recoverable"
  else if error.isJsonDecodeName then
    "warning"
  else if strContains context "json" || strContains context "parse" then
    "warning"
  else if strContains context "validation" then
    "warning"
  else if error.isValueClass then
    "warning"
  else
    "recoverable"

/-! ## AutomationConfig -/

/-- The nine config attributes of AutomationConfig, holding the Python
values stored on the instance. -/
structure AutomationConfig : Type where
  enabled : PyVal
  auto_launch_desktop : PyVal
  desktop_app_name : PyVal
  launch_timeout : PyVal
  response_timeout : PyVal
  polling_interval : PyVal
  auto_execute_proposals : PyVal
  create_backups : PyVal
  max_retries : PyVal
deriving DecidableEq, Repr

/-- AutomationConfig.DEFAULT_CONFIG (automation_helper.py lines 28-38). -/
def defaultConfig : AutomationConfig where
  enabled := .pbool true
  auto_launch_desktop := .pbool true
  desktop_app_name := .pstr "Claude"
  launch_timeout := .pint 10
  response_timeout := .pint 1800
  polling_interval := .pint 1
  auto_execute_proposals := .pbool false
  create_backups := .pbool true
  max_retries := .pint 3

/-- A parsed config document: for each of the nine keys, whether the key is
present in the JSON object and, if so, its value. Unknown keys are never
read by _apply_config, so they are not modelled. -/
structure ConfigDoc : Type where
  enabled : Option PyVal := none
  auto_launch_desktop : Option PyVal := none
  desktop_app_name : Option PyVal := none
  launch_timeout : Option PyVal := none
  response_timeout : Option PyVal := none
  polling_interval : Option PyVal := none
  auto_execute_proposals : Option PyVal := none
  create_backups : Option PyVal := none
  max_retries : Option PyVal := none
deriving DecidableEq, Repr

/-- One `if key in config_data: if <valid>: self.key = value` block of
AutomationConfig._apply_config. -/
def applyField (cur : PyVal) (dv : Option PyVal) (valid : PyVal → Bool) : PyVal :=
  match dv with
  | some v => if valid v then v else cur
  | none => cur

/-- AutomationConfig._apply_config (automation_helper.py lines 100-150):
each field is validated and overwritten independently. -/
def applyConfig (c : AutomationConfig) (d : ConfigDoc) : AutomationConfig where
  enabled := applyField c.enabled d.enabled PyVal.isBoolV
  auto_launch_desktop := applyField c.auto_launch_desktop d.auto_launch_desktop PyVal.isBoolV
  desktop_app_name := applyField c.desktop_app_name d.desktop_app_name PyVal.isStrV
  launch_timeout := applyField c.launch_timeout d.launch_timeout
    (fun v => v.isIntV && decide (0 < v.numV))
  response_timeout := applyField c.response_timeout d.response_timeout
    (fun v => v.isIntV && decide (0 < v.numV))
  polling_interval := applyField c.polling_interval d.polling_interval
    (fun v => v.isNumV && decide (0 < v.numV))
  auto_execute_proposals := applyField c.auto_execute_proposals d.auto_execute_proposals PyVal.isBoolV
  create_backups := applyField c.create_backups d.create_backups PyVal.isBoolV
  max_retries := applyField c.max_retries d.max_retries
    (fun v => v.isIntV && decide (0 < v.numV))

/-- AutomationConfig.load on a document that parses: defaults from __init__
followed by _apply_config on the parsed document. -/
def loadConfig (d : ConfigDoc) : AutomationConfig :=
  applyConfig defaultConfig d

/-- The spec's partial-override law, written from the claim's words: a field
whose document value is absent or fails that field's type/range test takes
the built-in default; a well-typed in-range value is taken unchanged. -/
def specFieldLoad (defv : PyVal) (dv : Option PyVal) (valid : PyVal → Bool) : PyVal :=
  match dv with
  | none => defv
  | some v => if valid v then v else defv

/-- The per-field fallback semantics the spec describes for `load`. -/
def specLoadConfig (d : ConfigDoc) : AutomationConfig where
  enabled := specFieldLoad defaultConfig.enabled d.enabled PyVal.isBoolV
  auto_launch_desktop :=
    specFieldLoad defaultConfig.auto_launch_desktop d.auto_launch_desktop PyVal.isBoolV
  desktop_app_name :=
    specFieldLoad defaultConfig.desktop_app_name d.desktop_app_name PyVal.isStrV
  launch_timeout := specFieldLoad defaultConfig.launch_timeout d.launch_timeout
    (fun v => v.isIntV && decide (0 < v.numV))
  response_timeout := specFieldLoad defaultConfig.response_timeout d.response_timeout
    (fun v => v.isIntV && decide (0 < v.numV))
  polling_interval := specFieldLoad defaultConfig.polling_interval d.polling_interval
    (fun v => v.isNumV && decide (0 < v.numV))
  auto_execute_proposals :=
    specFieldLoad defaultConfig.auto_execute_proposals d.auto_execute_proposals PyVal.isBoolV
  create_backups :=
    specFieldLoad defaultConfig.create_backups d.create_backups PyVal.isBoolV
  max_retries := specFieldLoad defaultConfig.max_retries d.max_retries
    (fun v => v.isIntV && decide (0 < v.numV))

/-! ## ProposalExecutor.execute_step / execute_all_steps -/

/-- One implementation step from the response document; execute_step only
reads the two display fields with dict.get defaults. -/
structure Step : Type where
  description : Option String := none
  action : Option String := none
deriving DecidableEq, Repr

/-- ProposalExecutor.execute_step (automation_helper.py lines 871-894):
prints the step and returns True. -/
def executeStep (_step : Step) (_current _total : Nat) : Bool :=
  true

/-- The loop body of execute_all_steps: append each result, break after the
first False. -/
def executeStepsLoop (total : Nat) : List Step → Nat → List Bool
  | [], _ => []
  | s :: rest, i =>
    let r := executeStep s i total
    if r then r :: executeStepsLoop total rest (i + 1) else [r]

/-- ProposalExecutor.execute_all_steps (automation_helper.py lines 896-930). -/
def executeAllSteps (steps : List Step) : List Bool :=
  executeStepsLoop steps.length steps 1

/-! ## Claim-side validity predicates for config fields -/

/-- The integer a Python value denotes, when it is an int (bool included). -/
def pyIntValue : PyVal → Option Int
  | .pbool b => some (if b then 1 else 0)
  | .pint n => some n
  | _ => none

/-- The number a Python value denotes, when it is an int or a float. -/
def pyNumValue : PyVal → Option Rat
  | .pbool b => some (if b then 1 else 0)
  | .pint n => some (n : Rat)
  | .pfloat q => some q
  | _ => none

lemma boolCheck_iff (v : PyVal) : PyVal.isBoolV v = true ↔ ∃ b, v = .pbool b := by
  cases v <;> simp [PyVal.isBoolV]

lemma strCheck_iff (v : PyVal) : PyVal.isStrV v = true ↔ ∃ s, v = .pstr s := by
  cases v <;> simp [PyVal.isStrV]

lemma intCheck_iff (v : PyVal) :
    (v.isIntV && decide (0 < v.numV)) = true ↔ ∃ n, pyIntValue v = some n ∧ 0 < n := by
  cases v with
  | pbool b => cases b <;> simp [PyVal.isIntV, PyVal.numV, pyIntValue]
  | pint n => simp [PyVal.isIntV, PyVal.numV, pyIntValue]
  | pfloat q => simp [PyVal.isIntV, pyIntValue]
  | pstr s => simp [PyVal.isIntV, pyIntValue]
  | pother => simp [PyVal.isIntV, pyIntValue]

lemma numCheck_iff (v : PyVal) :
    (v.isNumV && decide (0 < v.numV)) = true ↔ ∃ q, pyNumValue v = some q ∧ 0 < q := by
  cases v with
  | pbool b => cases b <;> simp [PyVal.isNumV, PyVal.numV, pyNumValue]
  | pint n => simp [PyVal.isNumV, PyVal.numV, pyNumValue]
  | pfloat q => simp [PyVal.isNumV, PyVal.numV, pyNumValue]
  | pstr s => simp [PyVal.isNumV, pyNumValue]
  | pother => simp [PyVal.isNumV, pyNumValue]

/-- Characterization of one _apply_config field block in terms of a
claim-side validity proposition. -/
lemma applyField_char (cur : PyVal) (dv : Option PyVal) (valid : PyVal → Bool)
    (P : PyVal → Prop) (hPiff : ∀ v, valid v = true ↔ P v) :
    (∀ v, dv = some v → P v → applyField cur dv valid = v) ∧
    ((∀ v, dv = some v → ¬ P v) → applyField cur dv valid = cur) := by
  constructor
  · intro v hv hP
    subst hv
    simp [applyField, (hPiff v).mpr hP]
  · intro hinv
    cases dv with
    | none => rfl
    | some v =>
      have hval : valid v = false := by
        cases hvb : valid v with
        | false => rfl
        | true => exact absurd ((hPiff v).mp hvb) (hinv v rfl)
      simp [applyField, hval]

/-! ## DesktopLauncher.launch_with_retry -/

/-- Whether attempt a (1-based) succeeds: launch() returned True and then
wait_until_ready() returned True. launchOk and readyOk are oracles for the
outcomes of the two subprocess-backed primitives at each attempt. -/
def attemptOk (launchOk readyOk : Nat → Bool) (a : Nat) : Bool :=
  launchOk a && readyOk a

/-- The retry loop of DesktopLauncher.launch_with_retry (automation_helper.py
lines 476-506), recursing on the number of remaining attempts; the result
carries (returned value, number of launch() calls made, number of 1-second
sleeps performed). A sleep happens after every failed attempt except the
last one. -/
def launchRetryLoop (launchOk readyOk : Nat → Bool) : Nat → Nat → Bool × Nat × Nat
  | _, 0 => (false, 0, 0)
  | a, r + 1 =>
    if attemptOk launchOk readyOk a then
      (true, 1, 0)
    else
      let res := launchRetryLoop launchOk readyOk (a + 1) r
      (res.1, res.2.1 + 1, res.2.2 + (if 0 < r then 1 else 0))

/-- DesktopLauncher.launch_with_retry: attempts run 1..max_retries. -/
def launchWithRetry (launchOk readyOk : Nat → Bool) (maxRetries : Nat) : Bool × Nat × Nat :=
  launchRetryLoop launchOk readyOk 1 maxRetries

/-! ## ResponseMonitor.wait_for_response -/

/-- The polling loop of ResponseMonitor.wait_for_response
(automation_helper.py lines 553-588). Each poll cycle is one observation
of the environment: cancelledAt i tells whether cancel() has been observed
by poll i, existsAt i whether the response file exists at poll i. Time is
idealized: the check at the top of the loop takes no time and every
unsuccessful poll sleeps exactly polling_interval seconds, so poll i runs
at elapsed time i * interval, and the loop guard is i * interval < timeout.
The cancellation flag is tested before the existence check. fuel bounds the
recursion; waitForResponse supplies enough fuel for the guard to fail
first. -/
def waitPollLoop (cancelledAt existsAt : Nat → Bool) (timeout interval : Rat) :
    Nat → Nat → Bool
  | 0, _ => false
  | fuel + 1, i =>
    if (i : Rat) * interval < timeout then
      if cancelledAt i then false
      else if existsAt i then true
      else waitPollLoop cancelledAt existsAt timeout interval fuel (i + 1)
    else false

/-- ResponseMonitor.wait_for_response: run the polling loop from poll 0. -/
def waitForResponse (cancelledAt existsAt : Nat → Bool) (timeout interval : Rat) : Bool :=
  waitPollLoop cancelledAt existsAt timeout interval (⌈timeout / interval⌉₊ + 1) 0

/-! ## ResponseMonitor.read_response -/

/-- What one read attempt of ResponseMonitor.read_response observes:
the file is absent, the file parses to a document, json.loads raises,
read_text raises an IOError/OSError, or some other exception occurs. -/
inductive ReadOutcome : Type where
  | absent
  | ok (doc : String)
  | jsonError
  | ioError
  | otherError
deriving DecidableEq, Repr

/-- Whether the outcome is one of the two retried exception kinds. -/
def ReadOutcome.isTransient : ReadOutcome → Bool
  | .jsonError | .ioError => true
  | _ => false

/-- The attempt loop of ResponseMonitor.read_response (automation_helper.py
lines 590-640), recursing on remaining attempts; result carries the return
value and the number of 1-second sleeps performed. Absence, success and
unexpected errors return immediately; parse and I/O errors retry (with a
sleep) only when this is not the final attempt. -/
def readRespLoop (outcome : Nat → ReadOutcome) : Nat → Nat → Option String × Nat
  | _, 0 => (none, 0)
  | a, r + 1 =>
    match outcome a with
    | .absent => (none, 0)
    | .ok d => (some d, 0)
    | .otherError => (none, 0)
    | .jsonError | .ioError =>
      if 0 < r then
        let res := readRespLoop outcome (a + 1) r
        (res.1, res.2 + 1)
      else
        (none, 0)

/-- ResponseMonitor.read_response: attempts are 0-based, range(max_retries). -/
def readResponse (outcome : Nat → ReadOutcome) (maxRetries : Nat) : Option String × Nat :=
  readRespLoop outcome 0 maxRetries

/-! ## AutomatedBridge.run_automated_workflow -/

/-- Python truthiness of a value, as tested by `if self.config.auto_launch_desktop:`. -/
def pyTruthy : PyVal → Bool
  | .pbool b => b
  | .pint n => decide (n ≠ 0)
  | .pfloat q => decide (q ≠ 0)
  | .pstr s => !s.isEmpty
  | .pother => true

/-- A call into one of DesktopLauncher's process primitives. -/
inductive LauncherOp : Type where
  | launchApp
  | isRunningCheck
  | waitReady
deriving DecidableEq, Repr

/-- An observable step of run_automated_workflow, in execution order. -/
inductive WorkflowEvent : Type where
  | createRequest
  | launcher (op : LauncherOp)
  | waitForResp
  | readResp
  | showFallback
  | showInstructions
deriving DecidableEq, Repr

/-- Oracle for one workflow run: the id create_automated_request returns,
the launcher operations launch_with_retry would perform and its result,
the result of wait_for_response, and the parsed document read_response
returns (None on failure). -/
structure WorkflowEnv : Type where
  requestId : String
  launcherOps : List LauncherOp
  launchRetryOk : Bool
  waitOk : Bool
  readResult : Option String
deriving DecidableEq, Repr

/-- The tagged result dictionary of run_automated_workflow: status is one
of manual_mode, timeout, success; every variant carries the request id and
success carries the parsed response. -/
inductive WorkflowResult : Type where
  | manualMode (requestId : String)
  | timedOut (requestId : String)
  | success (requestId : String) (response : String)
deriving DecidableEq, Repr

/-- The request id carried by a workflow result. -/
def WorkflowResult.rid : WorkflowResult → String
  | .manualMode r => r
  | .timedOut r => r
  | .success r _ => r

/-- AutomatedBridge.run_automated_workflow (automation_helper.py lines
721-804): create the request; if auto_launch_desktop is truthy, run
launch_with_retry (falling back to manual_mode on failure), then wait for
and read the response (success on a parsed document, timeout otherwise);
if auto_launch_desktop is falsy, return manual_mode directly without
touching the launcher. -/
def runAutomatedWorkflow (cfg : AutomationConfig) (env : WorkflowEnv) :
    WorkflowResult × List WorkflowEvent :=
  let rid := env.requestId
  if pyTruthy cfg.auto_launch_desktop then
    if !env.launchRetryOk then
      (.manualMode rid,
        [.createRequest] ++ env.launcherOps.map .launcher ++ [.showFallback, .showInstructions])
    else if env.waitOk then
      match env.readResult with
      | some r =>
        (.success rid r,
          [.createRequest] ++ env.launcherOps.map .launcher ++ [.waitForResp, .readResp])
      | none =>
        (.timedOut rid,
          [.createRequest] ++ env.launcherOps.map .launcher ++
            [.waitForResp, .readResp, .showInstructions])
    else
      (.timedOut rid,
        [.createRequest] ++ env.launcherOps.map .launcher ++ [.waitForResp, .showInstructions])
  else
    (.manualMode rid, [.createRequest, .showInstructions])

/-! ## Filesystem model -/

/-- A filesystem as a partial map from paths to text contents. -/
def FileSys : Type := String → Option String

/-- Overwrite (or create) the file at path p with content c. -/
def fsWrite (fs : FileSys) (p c : String) : FileSys :=
  fun q => if q = p then some c else fs q

/-- Delete the file at path p (Path.unlink). -/
def fsRemove (fs : FileSys) (p : String) : FileSys :=
  fun q => if q = p then none else fs q

/-- Path.exists() for a file. -/
def fsExists (fs : FileSys) (p : String) : Bool :=
  (fs p).isSome

/-! ## ProposalExecutor.create_backup / apply_code_file -/

/-- Split a character list at '/' separators. -/
def splitOnSlash : List Char → List (List Char)
  | [] => [[]]
  | c :: cs =>
    match splitOnSlash cs with
    | [] => if c = '/' then [[], []] else [[c]]
    | g :: gs => if c = '/' then [] :: g :: gs else (c :: g) :: gs

/-- Split a basename's tail at its last dot: some (stem-tail, suffix
including the dot) when a dot occurs, none otherwise. -/
def lastDotSplit : List Char → Option (List Char × List Char)
  | [] => none
  | c :: cs =>
    match lastDotSplit cs with
    | some (st, suf) => some (c :: st, suf)
    | none => if c = '.' then some ([], '.' :: cs) else none

/-- pathlib's (stem, suffix) of a basename: the suffix starts at the last
dot, except that a leading dot (hidden file) starts the stem. -/
def stemAndSuffix : List Char → List Char × List Char
  | [] => ([], [])
  | c0 :: rest =>
    match lastDotSplit rest with
    | some (st, suf) => (c0 :: st, suf)
    | none => (c0 :: rest, [])

/-- The timestamped backup file name of ProposalExecutor.create_backup:
source stem, underscore, timestamp, source suffix. -/
def backupFileName (filePath timestamp : String) : String :=
  let base := (splitOnSlash filePath.data).getLastD []
  let parts := stemAndSuffix base
  String.mk parts.1 ++ "_" ++ timestamp ++ String.mk parts.2

/-- An externally visible filesystem effect, in execution order. -/
inductive FsEffect : Type where
  | write (path content : String)
  | mkdirParents (path : String)
  | removeFile (path : String)
deriving DecidableEq, Repr

/-- ProposalExecutor.create_backup (automation_helper.py lines 932-964):
absent source yields None and no effect; otherwise the source content is
copied under the timestamped name in the backup directory. writeRaises
says whether write_text raises at a path; the method's own except clause
(lines 962-964) catches any such exception and returns None with no
backup created. -/
def createBackup (writeRaises : String → Bool) (backupDir : String) (fs : FileSys)
    (filePath timestamp : String) : Option String × FileSys × List FsEffect :=
  match fs filePath with
  | none => (none, fs, [])
  | some content =>
    let bp := backupDir ++ "/" ++ backupFileName filePath timestamp
    if writeRaises bp then (none, fs, [])
    else (some bp, fsWrite fs bp content, [.write bp content])

/-- ProposalExecutor.apply_code_file (automation_helper.py lines 966-999):
attempt a backup of an existing target (unconditionally — the
create_backups config flag is never consulted; create_backup swallows its
own failures, so the overwrite proceeds even when the backup silently
fails), ensure parent directories, overwrite the target, return True; an
exception from the target write is caught by the except clause (lines
997-999) and returns False. The config argument is carried because the
method reads self.config for nothing. -/
def applyCodeFile (_cfg : AutomationConfig) (writeRaises : String → Bool)
    (backupDir : String) (fs : FileSys) (filePath content timestamp : String) :
    Bool × FileSys × List FsEffect :=
  let backed :=
    if fsExists fs filePath then
      let cb := createBackup writeRaises backupDir fs filePath timestamp
      (cb.2.1, cb.2.2)
    else (fs, [])
  if writeRaises filePath then
    (false, backed.1, backed.2 ++ [.mkdirParents filePath])
  else
    (true, fsWrite backed.1 filePath content,
      backed.2 ++ [.mkdirParents filePath, .write filePath content])

/-! ## CheckpointManager manifest, rollback and listing -/

/-- One (original_path, backup_name) pair of a checkpoint manifest. -/
structure ManifestEntry : Type where
  original_path : String
  backup_name : String
deriving DecidableEq, Repr

/-- A parsed checkpoint manifest (the fields rollback and list_checkpoints
read: the time-derived timestamp and the recorded file pairs). -/
structure Manifest : Type where
  timestamp : String := ""
  files : List ManifestEntry := []
deriving DecidableEq, Repr

/-- The restore loop of CheckpointManager.rollback (automation_helper.py
lines 1474-1484): for each manifest entry whose backup exists (backupRead
gives the backup file's content by backup name), overwrite the original
path; an entry with a missing backup is skipped. writeRaises says whether
write_text raises at a path; a raise escapes to the except clause, so the
loop aborts, leaving the remaining entries untouched (second component
False). -/
def restoreLoop (backupRead : String → Option String) (writeRaises : String → Bool) :
    List ManifestEntry → FileSys → FileSys × Bool
  | [], fs => (fs, true)
  | e :: rest, fs =>
    match backupRead e.backup_name with
    | none => restoreLoop backupRead writeRaises rest fs
    | some content =>
      if writeRaises e.original_path then (fs, false)
      else restoreLoop backupRead writeRaises rest (fsWrite fs e.original_path content)

/-- The new-file deletion loop of rollback (lines 1487-1492): unlink every
listed path that exists; a raising unlink aborts the loop the same way. -/
def deleteLoop (deleteRaises : String → Bool) : List String → FileSys → FileSys × Bool
  | [], fs => (fs, true)
  | p :: rest, fs =>
    if fsExists fs p then
      if deleteRaises p then (fs, false)
      else deleteLoop deleteRaises rest (fsRemove fs p)
    else deleteLoop deleteRaises rest fs

/-- CheckpointManager.rollback (automation_helper.py lines 1444-1502):
fail when the checkpoint directory is missing or the manifest load raises
(manifest = none); otherwise restore the manifest entries, then delete the
new files; any raise inside either loop is caught by the single except
clause, aborting everything after it and returning False. -/
def rollback (checkpointExists : Bool) (manifest : Option Manifest)
    (backupRead : String → Option String) (writeRaises deleteRaises : String → Bool)
    (fs : FileSys) (newFiles : List String) : Bool × FileSys :=
  if !checkpointExists then (false, fs)
  else
    match manifest with
    | none => (false, fs)
    | some m =>
      let restored := restoreLoop backupRead writeRaises m.files fs
      if !restored.2 then (false, restored.1)
      else
        let deleted := deleteLoop deleteRaises newFiles restored.1
        if !deleted.2 then (false, deleted.1)
        else (true, deleted.1)

/-- What CheckpointManager.list_checkpoints observes for one entry of the
checkpoint directory: not a directory, a directory without metadata.json,
or a directory whose metadata.json is read — parsing to a manifest or
raising (none). -/
inductive DirEntry : Type where
  | notDir
  | noMetadata
  | metadata (parsed : Option Manifest)
deriving DecidableEq, Repr

/-- Lexicographic order on character lists, as Python compares strings. -/
def charListLe : List Char → List Char → Bool
  | [], _ => true
  | _ :: _, [] => false
  | a :: as, b :: bs =>
    if a < b then true
    else if a = b then charListLe as bs
    else false

/-- Python's string ≤ (lexicographic by code point). -/
def strLe (a b : String) : Bool :=
  charListLe a.data b.data

/-- Insert into a list sorted by descending timestamp, keeping the
inserted (earlier-enumerated) element in front of equal timestamps, as
Python's stable sort with reverse=True does. -/
def insertDescM (m : Manifest) : List Manifest → List Manifest
  | [] => [m]
  | x :: xs =>
    if strLe x.timestamp m.timestamp then m :: x :: xs else x :: insertDescM m xs

/-- checkpoints.sort(key=timestamp, reverse=True): stable descending. -/
def sortByTimestampDesc : List Manifest → List Manifest
  | [] => []
  | x :: xs => insertDescM x (sortByTimestampDesc xs)

/-- The enumeration loop of list_checkpoints (automation_helper.py lines
1514-1523): skip non-directories and directories without metadata.json,
collect parsed manifests; a manifest whose json.loads raises escapes to
the except clause around the whole loop, so enumeration stops there
(second component False) with the manifests collected so far. -/
def listCheckpointsLoop : List DirEntry → List Manifest → List Manifest × Bool
  | [], acc => (acc, true)
  | e :: rest, acc =>
    match e with
    | .notDir => listCheckpointsLoop rest acc
    | .noMetadata => listCheckpointsLoop rest acc
    | .metadata none => (acc, false)
    | .metadata (some m) => listCheckpointsLoop rest (acc ++ [m])

/-- CheckpointManager.list_checkpoints (automation_helper.py lines
1504-1534): the sort runs inside the try block, so it is reached only when
every manifest parsed; on a raise the caught exception leaves the partial,
unsorted list to be returned. -/
def listCheckpoints (entries : List DirEntry) : List Manifest :=
  let collected := listCheckpointsLoop entries []
  if collected.2 then sortByTimestampDesc collected.1 else collected.1

/-- The manifests of the checkpoint directories whose manifest parses, in
directory order. -/
def parsedManifests : List DirEntry → List Manifest :=
  List.filterMap fun e =>
    match e with
    | .metadata (some m) => some m
    | _ => none

end ClaudeBridge

namespace ClaudeBridge

/-! ## Theorems -/

/-- C1 counterexample. The claim says a FileNotFoundError in a context
containing "validation" (and none of the critical/network/io phrases, and
not exactly "io") classifies as "warning". At the concrete context
"validation" all of the claim's premises hold, yet classify_error returns
"recoverable": the recoverable exception-type rule for I/O errors runs
before the "validation" context check. -/
theorem classify_error_validation_counterexample :
    strContains "validation" "validation" = true ∧
    strContains "validation" "system_crash" = false ∧
    strContains "validation" "critical" = false ∧
    strContains "validation" "network" = false ∧
    strContains "validation" "timeout" = false ∧
    strContains "validation" "file_operation" = false ∧
    strContains "validation" "json" = false ∧
    strContains "validation" "parse" = false ∧
    ("validation" == "io") = false ∧
    classifyError ExcClass.fileNotFoundError "validation" = "recoverable" ∧
    classifyError ExcClass.fileNotFoundError "validation" ≠ "warning" := by
  decide

/-- C1 amended: for a FileNotFoundError, whenever the context contains
neither "system_crash" nor "critical", classify_error returns
"recoverable" — the recoverable I/O exception-type rule takes precedence
over every warning-signaling context check, including "validation". (The
intentional quirk in the source is only that the recoverable-context rule
tests context == "io" exactly, so that a "validation" context is not
caught by an "io" substring test.) -/
theorem classify_error_fnf_recoverable (context : String)
    (h1 : strContains context "system_crash" = false)
    (h2 : strContains context "critical" = false) :
    classifyError ExcClass.fileNotFoundError context = "recoverable" := by
  cases hnet : (strContains context "network" || strContains context "timeout") <;>
    simp [classifyError, h1, h2, hnet, ExcClass.isCriticalClass,
      ExcClass.isNetworkClass, ExcClass.isFileIOClass]

/-- C1 witness: the amended theorem applied at the concrete context
"validation". -/
theorem classify_error_fnf_recoverable_witness :
    classifyError ExcClass.fileNotFoundError "validation" = "recoverable" :=
  classify_error_fnf_recoverable "validation" (by decide) (by decide)

/-- C5: the per-field fallback law of AutomationConfig load. For each of
the nine fields: a present, well-typed, in-range document value is taken
unchanged, and a field whose document value is absent, of the wrong type,
or out of range keeps that field's built-in default — the fallback is
per-field, never whole-document (each conjunct constrains its field through
that field's document entry alone). -/
theorem load_config_per_field (d : ConfigDoc) :
    ((∀ v, d.enabled = some v → (∃ b, v = .pbool b) → (loadConfig d).enabled = v) ∧
     ((∀ v, d.enabled = some v → ¬ ∃ b, v = .pbool b) →
       (loadConfig d).enabled = defaultConfig.enabled)) ∧
    ((∀ v, d.auto_launch_desktop = some v → (∃ b, v = .pbool b) →
       (loadConfig d).auto_launch_desktop = v) ∧
     ((∀ v, d.auto_launch_desktop = some v → ¬ ∃ b, v = .pbool b) →
       (loadConfig d).auto_launch_desktop = defaultConfig.auto_launch_desktop)) ∧
    ((∀ v, d.desktop_app_name = some v → (∃ s, v = .pstr s) →
       (loadConfig d).desktop_app_name = v) ∧
     ((∀ v, d.desktop_app_name = some v → ¬ ∃ s, v = .pstr s) →
       (loadConfig d).desktop_app_name = defaultConfig.desktop_app_name)) ∧
    ((∀ v, d.launch_timeout = some v → (∃ n, pyIntValue v = some n ∧ 0 < n) →
       (loadConfig d).launch_timeout = v) ∧
     ((∀ v, d.launch_timeout = some v → ¬ ∃ n, pyIntValue v = some n ∧ 0 < n) →
       (loadConfig d).launch_timeout = defaultConfig.launch_timeout)) ∧
    ((∀ v, d.response_timeout = some v → (∃ n, pyIntValue v = some n ∧ 0 < n) →
       (loadConfig d).response_timeout = v) ∧
     ((∀ v, d.response_timeout = some v → ¬ ∃ n, pyIntValue v = some n ∧ 0 < n) →
       (loadConfig d).response_timeout = defaultConfig.response_timeout)) ∧
    ((∀ v, d.polling_interval = some v → (∃ q, pyNumValue v = some q ∧ 0 < q) →
       (loadConfig d).polling_interval = v) ∧
     ((∀ v, d.polling_interval = some v → ¬ ∃ q, pyNumValue v = some q ∧ 0 < q) →
       (loadConfig d).polling_interval = defaultConfig.polling_interval)) ∧
    ((∀ v, d.auto_execute_proposals = some v → (∃ b, v = .pbool b) →
       (loadConfig d).auto_execute_proposals = v) ∧
     ((∀ v, d.auto_execute_proposals = some v → ¬ ∃ b, v = .pbool b) →
       (loadConfig d).auto_execute_proposals = defaultConfig.auto_execute_proposals)) ∧
    ((∀ v, d.create_backups = some v → (∃ b, v = .pbool b) →
       (loadConfig d).create_backups = v) ∧
     ((∀ v, d.create_backups = some v → ¬ ∃ b, v = .pbool b) →
       (loadConfig d).create_backups = defaultConfig.create_backups)) ∧
    ((∀ v, d.max_retries = some v → (∃ n, pyIntValue v = some n ∧ 0 < n) →
       (loadConfig d).max_retries = v) ∧
     ((∀ v, d.max_retries = some v → ¬ ∃ n, pyIntValue v = some n ∧ 0 < n) →
       (loadConfig d).max_retries = defaultConfig.max_retries)) :=
  ⟨applyField_char _ _ _ _ boolCheck_iff,
   applyField_char _ _ _ _ boolCheck_iff,
   applyField_char _ _ _ _ strCheck_iff,
   applyField_char _ _ _ _ intCheck_iff,
   applyField_char _ _ _ _ intCheck_iff,
   applyField_char _ _ _ _ numCheck_iff,
   applyField_char _ _ _ _ boolCheck_iff,
   applyField_char _ _ _ _ boolCheck_iff,
   applyField_char _ _ _ _ intCheck_iff⟩

/-- C5 witness: the per-field law applied at a concrete document with one
valid field (launch_timeout = 5) and one invalid field (max_retries is a
string): the valid field is taken, the invalid one falls back to its
default, and an untouched field keeps its default. -/
theorem load_config_per_field_witness :
    (loadConfig { launch_timeout := some (.pint 5), max_retries := some (.pstr "x") }).launch_timeout
      = .pint 5 ∧
    (loadConfig { launch_timeout := some (.pint 5), max_retries := some (.pstr "x") }).max_retries
      = defaultConfig.max_retries := by
  refine ⟨(load_config_per_field _).2.2.2.1.1 (.pint 5) rfl ⟨5, rfl, by decide⟩, ?_⟩
  refine (load_config_per_field
    { launch_timeout := some (.pint 5), max_retries := some (.pstr "x") }).2.2.2.2.2.2.2.2.2 ?_
  intro v hv
  cases hv
  rintro ⟨n, hn, -⟩
  simp [pyIntValue] at hn

lemma launchRetryLoop_calls_le (f g : Nat → Bool) :
    ∀ r a, (launchRetryLoop f g a r).2.1 ≤ r := by
  intro r
  induction r with
  | zero => intro a; simp [launchRetryLoop]
  | succ r ih =>
    intro a
    cases hA : attemptOk f g a with
    | true => simp [launchRetryLoop, hA]
    | false =>
      simp only [launchRetryLoop, hA, Bool.false_eq_true, if_false]
      have := ih (a + 1)
      omega

lemma launchRetryLoop_true_iff (f g : Nat → Bool) :
    ∀ r a, ((launchRetryLoop f g a r).1 = true ↔
      ∃ j, a ≤ j ∧ j < a + r ∧ attemptOk f g j = true) := by
  intro r
  induction r with
  | zero =>
    intro a
    simp only [launchRetryLoop]
    constructor
    · intro h; exact absurd h (by simp)
    · rintro ⟨j, h1, h2, -⟩; omega
  | succ r ih =>
    intro a
    cases hA : attemptOk f g a with
    | true =>
      simp only [launchRetryLoop, hA, if_true]
      exact ⟨fun _ => ⟨a, le_refl a, by omega, hA⟩, fun _ => trivial⟩
    | false =>
      simp only [launchRetryLoop, hA, Bool.false_eq_true, if_false]
      rw [ih (a + 1)]
      constructor
      · rintro ⟨j, h1, h2, h3⟩
        exact ⟨j, by omega, by omega, h3⟩
      · rintro ⟨j, h1, h2, h3⟩
        have hne : j ≠ a := by
          intro he
          rw [he, hA] at h3
          exact Bool.noConfusion h3
        exact ⟨j, by omega, by omega, h3⟩

lemma launchRetryLoop_first (f g : Nat → Bool) :
    ∀ r a k, a ≤ k → k < a + r → attemptOk f g k = true →
      (∀ j, a ≤ j → j < k → attemptOk f g j = false) →
      launchRetryLoop f g a r = (true, k - a + 1, k - a) := by
  intro r
  induction r with
  | zero => intro a k h1 h2; omega
  | succ r ih =>
    intro a k h1 h2 hk hfirst
    rcases Nat.eq_or_lt_of_le h1 with he | hlt
    · subst he
      simp [launchRetryLoop, hk]
    · have hA : attemptOk f g a = false := hfirst a (le_refl a) hlt
      have hr : 0 < r := by omega
      simp only [launchRetryLoop, hA, Bool.false_eq_true, if_false]
      rw [ih (a + 1) k (by omega) (by omega) hk (fun j hj1 hj2 => hfirst j (by omega) hj2)]
      simp only [hr, if_pos]
      refine Prod.ext rfl (Prod.ext ?_ ?_) <;> simp <;> omega

lemma launchRetryLoop_allfail (f g : Nat → Bool) :
    ∀ r a, (∀ j, a ≤ j → j < a + r → attemptOk f g j = false) →
      launchRetryLoop f g a r = (false, r, r - 1) := by
  intro r
  induction r with
  | zero => intro a _; rfl
  | succ r ih =>
    intro a hall
    have hA : attemptOk f g a = false := hall a (le_refl a) (by omega)
    simp only [launchRetryLoop, hA, Bool.false_eq_true, if_false]
    rw [ih (a + 1) (fun j h1 h2 => hall j (by omega) (by omega))]
    rcases Nat.eq_zero_or_pos r with hr | hr
    · subst hr; rfl
    · simp only [hr, if_pos]
      refine Prod.ext rfl (Prod.ext rfl ?_)
      simp
      omega

/-- C4: DesktopLauncher.launch_with_retry with max_retries = n > 0 calls
launch() at most n times; if attempt k is the first whose launch-then-ready
sequence succeeds it returns True having made exactly k launch calls and
k-1 one-second inter-attempt sleeps (success stops further attempts; a
sleep follows every failed attempt except the last); it returns True iff
some attempt in 1..n succeeds, and after n all-failed attempts it returns
False with n launch calls and n-1 sleeps. -/
theorem launch_with_retry_spec (launchOk readyOk : Nat → Bool) (n : Nat) (hn : 0 < n) :
    ((launchWithRetry launchOk readyOk n).2.1 ≤ n) ∧
    ((launchWithRetry launchOk readyOk n).1 = true ↔
      ∃ a, 1 ≤ a ∧ a ≤ n ∧ attemptOk launchOk readyOk a = true) ∧
    (∀ k, 1 ≤ k → k ≤ n → attemptOk launchOk readyOk k = true →
      (∀ j, 1 ≤ j → j < k → attemptOk launchOk readyOk j = false) →
      launchWithRetry launchOk readyOk n = (true, k, k - 1)) ∧
    ((∀ a, 1 ≤ a → a ≤ n → attemptOk launchOk readyOk a = false) →
      launchWithRetry launchOk readyOk n = (false, n, n - 1)) := by
  refine ⟨launchRetryLoop_calls_le launchOk readyOk n 1, ?_, ?_, ?_⟩
  · rw [launchWithRetry, launchRetryLoop_true_iff]
    constructor
    · rintro ⟨j, h1, h2, h3⟩; exact ⟨j, h1, by omega, h3⟩
    · rintro ⟨j, h1, h2, h3⟩; exact ⟨j, h1, by omega, h3⟩
  · intro k hk1 hk2 hk hfirst
    have := launchRetryLoop_first launchOk readyOk n 1 k hk1 (by omega) hk hfirst
    rw [launchWithRetry, this]
    congr 1 <;> try omega
    refine Prod.ext ?_ ?_ <;> simp <;> omega
  · intro hall
    exact launchRetryLoop_allfail launchOk readyOk n 1
      (fun j h1 h2 => hall j h1 (by omega))

/-- C4 witness: three attempts where the first launch fails, the second
launches but never becomes ready, and the third fully succeeds: the loop
returns True after exactly 3 launch calls and 2 sleeps. -/
theorem launch_with_retry_spec_witness :
    launchWithRetry (fun a => decide (2 ≤ a)) (fun a => a == 3) 3 = (true, 3, 2) :=
  (launch_with_retry_spec (fun a => decide (2 ≤ a)) (fun a => a == 3) 3 (by decide)).2.2.1
    3 (by decide) (by decide) (by decide)
    (fun j h1 h2 => by interval_cases j <;> rfl)

lemma waitPollLoop_true_iff (c e : Nat → Bool) (timeout interval : Rat)
    (hint : 0 < interval)
    (hmono : ∀ j k, j ≤ k → c j = true → c k = true) :
    ∀ fuel i, timeout ≤ ((i + fuel : Nat) : Rat) * interval →
      (waitPollLoop c e timeout interval fuel i = true ↔
        ∃ m, i ≤ m ∧ (m : Rat) * interval < timeout ∧ c m = false ∧ e m = true) := by
  intro fuel
  induction fuel with
  | zero =>
    intro i hfl
    rw [Nat.add_zero] at hfl
    simp only [waitPollLoop]
    constructor
    · intro h; exact Bool.noConfusion h
    · rintro ⟨m, him, hlt, -, -⟩
      have hcast : (i : Rat) ≤ (m : Rat) := by exact_mod_cast him
      have := mul_le_mul_of_nonneg_right hcast hint.le
      linarith
  | succ fuel ih =>
    intro i hfl
    by_cases hcond : (i : Rat) * interval < timeout
    · cases hc : c i with
      | true =>
        simp only [waitPollLoop, hcond, if_pos, hc, if_true]
        constructor
        · intro h; exact Bool.noConfusion h
        · rintro ⟨m, him, -, hcm, -⟩
          rw [hmono i m him hc] at hcm
          exact Bool.noConfusion hcm
      | false =>
        cases he : e i with
        | true =>
          simp only [waitPollLoop, hcond, if_pos, hc, Bool.false_eq_true, if_false, he,
            if_true]
          exact ⟨fun _ => ⟨i, le_refl i, hcond, hc, he⟩, fun _ => trivial⟩
        | false =>
          have hstep : waitPollLoop c e timeout interval (fuel + 1) i =
              waitPollLoop c e timeout interval fuel (i + 1) := by
            simp [waitPollLoop, hcond, hc, he]
          rw [hstep, ih (i + 1) (by rw [show i + 1 + fuel = i + (fuel + 1) by omega]; exact hfl)]
          constructor
          · rintro ⟨m, him, h2, h3, h4⟩
            exact ⟨m, by omega, h2, h3, h4⟩
          · rintro ⟨m, him, h2, h3, h4⟩
            have hne : m ≠ i := by
              intro hmi
              rw [hmi, he] at h4
              exact Bool.noConfusion h4
            exact ⟨m, by omega, h2, h3, h4⟩
    · simp only [waitPollLoop, hcond, if_false]
      constructor
      · intro h; exact Bool.noConfusion h
      · rintro ⟨m, him, hlt, -, -⟩
        have hcast : (i : Rat) ≤ (m : Rat) := by exact_mod_cast him
        have h1 := mul_le_mul_of_nonneg_right hcast hint.le
        have h2 := not_lt.mp hcond
        linarith

/-- C3: with each poll cycle modelled as one observation (cancellation
first, then file existence) and poll i occurring at elapsed time
i * polling_interval (each unsuccessful poll sleeps exactly
polling_interval seconds), wait_for_response returns True iff at some poll
within response_timeout seconds the cancelled flag is still unset and the
file is observed to exist; it returns False when cancellation is observed
(checked before every existence check) or when the loop guard expires at
the timeout. The cancelled flag is monotone: once set by cancel(), it
stays set. -/
theorem wait_for_response_iff (cancelledAt existsAt : Nat → Bool)
    (timeout interval : Rat) (htimeout : 0 < timeout) (hint : 0 < interval)
    (hmono : ∀ j k, j ≤ k → cancelledAt j = true → cancelledAt k = true) :
    (waitForResponse cancelledAt existsAt timeout interval = true ↔
      ∃ m : Nat, (m : Rat) * interval < timeout ∧ cancelledAt m = false ∧ existsAt m = true) := by
  have hfl : timeout ≤ ((0 + (⌈timeout / interval⌉₊ + 1) : Nat) : Rat) * interval := by
    have h1 : timeout / interval ≤ (⌈timeout / interval⌉₊ : Rat) := Nat.le_ceil _
    have h2 : timeout ≤ (⌈timeout / interval⌉₊ : Rat) * interval := (div_le_iff hint).mp h1
    push_cast
    nlinarith
  rw [waitForResponse,
    waitPollLoop_true_iff cancelledAt existsAt timeout interval hint hmono
      (⌈timeout / interval⌉₊ + 1) 0 hfl]
  constructor
  · rintro ⟨m, -, h2, h3, h4⟩; exact ⟨m, h2, h3, h4⟩
  · rintro ⟨m, h2, h3, h4⟩; exact ⟨m, Nat.zero_le m, h2, h3, h4⟩

/-- C3 witness: no cancellation, the file appears at poll 2, timeout 10
seconds, polling interval 1 second: wait_for_response returns True. -/
theorem wait_for_response_iff_witness :
    waitForResponse (fun _ => false) (fun i => i == 2) 10 1 = true :=
  (wait_for_response_iff (fun _ => false) (fun i => i == 2) 10 1 (by norm_num) (by norm_num)
    (fun _ _ _ h => Bool.noConfusion h)).mpr ⟨2, by norm_num, rfl, rfl⟩

lemma readRespLoop_absent (outcome : Nat → ReadOutcome) (a r : Nat)
    (h : outcome a = .absent) (hr : 0 < r) : readRespLoop outcome a r = (none, 0) := by
  cases r with
  | zero => omega
  | succ r => simp [readRespLoop, h]

lemma readRespLoop_success (outcome : Nat → ReadOutcome) :
    ∀ k r a d, k < r → outcome (a + k) = .ok d →
      (∀ j, j < k → (outcome (a + j)).isTransient = true) →
      readRespLoop outcome a r = (some d, k) := by
  intro k
  induction k with
  | zero =>
    intro r a d hkr hok _
    cases r with
    | zero => omega
    | succ r =>
      rw [Nat.add_zero] at hok
      simp [readRespLoop, hok]
  | succ k ih =>
    intro r a d hkr hok htr
    cases r with
    | zero => omega
    | succ r =>
      have ht0 : (outcome (a + 0)).isTransient = true := htr 0 (by omega)
      rw [Nat.add_zero] at ht0
      have hr : 0 < r := by omega
      have hrec : readRespLoop outcome (a + 1) r = (some d, k) := by
        refine ih r (a + 1) d (by omega) ?_ ?_
        · rw [show a + 1 + k = a + (k + 1) by omega]; exact hok
        · intro j hj
          rw [show a + 1 + j = a + (j + 1) by omega]
          exact htr (j + 1) (by omega)
      cases hout : outcome a with
      | absent => rw [hout] at ht0; exact Bool.noConfusion ht0
      | ok d' => rw [hout] at ht0; exact Bool.noConfusion ht0
      | otherError => rw [hout] at ht0; exact Bool.noConfusion ht0
      | jsonError => simp [readRespLoop, hout, hr, hrec]
      | ioError => simp [readRespLoop, hout, hr, hrec]

lemma readRespLoop_alltransient (outcome : Nat → ReadOutcome) :
    ∀ r a, 0 < r → (∀ j, j < r → (outcome (a + j)).isTransient = true) →
      readRespLoop outcome a r = (none, r - 1) := by
  intro r
  induction r with
  | zero => intro a h; omega
  | succ r ih =>
    intro a _ htr
    have ht0 : (outcome (a + 0)).isTransient = true := htr 0 (by omega)
    rw [Nat.add_zero] at ht0
    rcases Nat.eq_zero_or_pos r with hr | hr
    · subst hr
      cases hout : outcome a with
      | absent => rw [hout] at ht0; exact Bool.noConfusion ht0
      | ok d' => rw [hout] at ht0; exact Bool.noConfusion ht0
      | otherError => rw [hout] at ht0; exact Bool.noConfusion ht0
      | jsonError => simp [readRespLoop, hout]
      | ioError => simp [readRespLoop, hout]
    · have hrec : readRespLoop outcome (a + 1) r = (none, r - 1) := by
        refine ih (a + 1) hr ?_
        intro j hj
        rw [show a + 1 + j = a + (j + 1) by omega]
        exact htr (j + 1) (by omega)
      cases hout : outcome a with
      | absent => rw [hout] at ht0; exact Bool.noConfusion ht0
      | ok d' => rw [hout] at ht0; exact Bool.noConfusion ht0
      | otherError => rw [hout] at ht0; exact Bool.noConfusion ht0
      | jsonError => simp [readRespLoop, hout, hr, hrec]; omega
      | ioError => simp [readRespLoop, hout, hr, hrec]; omega

lemma readRespLoop_some (outcome : Nat → ReadOutcome) :
    ∀ r a d, (readRespLoop outcome a r).1 = some d →
      ∃ k, k < r ∧ outcome (a + k) = .ok d ∧
        ∀ j, j < k → (outcome (a + j)).isTransient = true := by
  intro r
  induction r with
  | zero => intro a d h; exact absurd h (by simp [readRespLoop])
  | succ r ih =>
    intro a d h
    cases hout : outcome a with
    | absent => rw [readRespLoop, hout] at h; exact absurd h (by simp)
    | otherError => rw [readRespLoop, hout] at h; exact absurd h (by simp)
    | ok d' =>
      rw [readRespLoop, hout] at h
      simp at h
      exact ⟨0, by omega, by rw [Nat.add_zero, hout, h], fun j hj => by omega⟩
    | jsonError =>
      rw [readRespLoop, hout] at h
      rcases Nat.eq_zero_or_pos r with hr | hr
      · subst hr; exact absurd h (by simp)
      · simp only [hr, if_pos] at h
        obtain ⟨k, hk, hok, htr⟩ := ih (a + 1) d h
        refine ⟨k + 1, by omega, by rw [show a + (k + 1) = a + 1 + k by omega]; exact hok, ?_⟩
        intro j hj
        cases j with
        | zero => rw [Nat.add_zero, hout]; rfl
        | succ j =>
          rw [show a + (j + 1) = a + 1 + j by omega]
          exact htr j (by omega)
    | ioError =>
      rw [readRespLoop, hout] at h
      rcases Nat.eq_zero_or_pos r with hr | hr
      · subst hr; exact absurd h (by simp)
      · simp only [hr, if_pos] at h
        obtain ⟨k, hk, hok, htr⟩ := ih (a + 1) d h
        refine ⟨k + 1, by omega, by rw [show a + (k + 1) = a + 1 + k by omega]; exact hok, ?_⟩
        intro j hj
        cases j with
        | zero => rw [Nat.add_zero, hout]; rfl
        | succ j =>
          rw [show a + (j + 1) = a + 1 + j by omega]
          exact htr j (by omega)

/-- C7: ResponseMonitor.read_response with max_retries = n > 0: an absent
file at the first check returns None immediately with no retry and no
sleep; a parse or I/O failure is retried with a 1-second sleep between
attempts, so the first successful read at attempt k (0-based) yields the
parsed document after exactly k sleeps; the result is a document iff some
attempt within the n reads it after only transient (parse/I-O) failures;
and when all n attempts fail transiently the result is None after n-1
sleeps (n-1 retries beyond the first attempt). -/
theorem read_response_spec (outcome : Nat → ReadOutcome) (n : Nat) (hn : 0 < n) :
    (outcome 0 = .absent → readResponse outcome n = (none, 0)) ∧
    (∀ d k, k < n → outcome k = .ok d →
      (∀ j, j < k → (outcome j).isTransient = true) →
      readResponse outcome n = (some d, k)) ∧
    (∀ d, ((readResponse outcome n).1 = some d ↔
      ∃ k, k < n ∧ outcome k = .ok d ∧ ∀ j, j < k → (outcome j).isTransient = true)) ∧
    ((∀ j, j < n → (outcome j).isTransient = true) → readResponse outcome n = (none, n - 1)) := by
  refine ⟨fun h => readRespLoop_absent outcome 0 n h hn, ?_, ?_, ?_⟩
  · intro d k hk hok htr
    refine readRespLoop_success outcome k n 0 d hk ?_ ?_
    · rw [Nat.zero_add]; exact hok
    · intro j hj; rw [Nat.zero_add]; exact htr j hj
  · intro d
    constructor
    · intro h
      obtain ⟨k, hk, hok, htr⟩ := readRespLoop_some outcome n 0 d h
      rw [Nat.zero_add] at hok
      exact ⟨k, hk, hok, fun j hj => by
        have := htr j hj
        rwa [Nat.zero_add] at this⟩
    · rintro ⟨k, hk, hok, htr⟩
      rw [readResponse, readRespLoop_success outcome k n 0 d hk
        (by rw [Nat.zero_add]; exact hok)
        (fun j hj => by rw [Nat.zero_add]; exact htr j hj)]
  · intro htr
    exact readRespLoop_alltransient outcome n 0 hn
      (fun j hj => by rw [Nat.zero_add]; exact htr j hj)

/-- C7 witness: with three attempts, a JSON parse error on attempt 0
followed by a successful read on attempt 1, read_response returns the
parsed document after exactly one 1-second sleep. -/
theorem read_response_spec_witness :
    readResponse (fun a => if a = 0 then .jsonError else .ok "doc") 3 = (some "doc", 1) :=
  (read_response_spec (fun a => if a = 0 then .jsonError else .ok "doc") 3 (by decide)).2.1
    "doc" 1 (by decide) rfl (fun j hj => by interval_cases j <;> rfl)

/-- C6: when auto_launch_desktop is falsy, run_automated_workflow returns
the manual_mode result carrying the request id and its event trace holds
no launcher operation at all; in every run the result is one of
manual_mode / timeout / success, always carries the request id, and a
success result carries exactly the document read_response parsed. -/
theorem run_automated_workflow_spec (cfg : AutomationConfig) (env : WorkflowEnv) :
    (pyTruthy cfg.auto_launch_desktop = false →
      runAutomatedWorkflow cfg env =
        (.manualMode env.requestId, [.createRequest, .showInstructions]) ∧
      ∀ ev ∈ (runAutomatedWorkflow cfg env).2, ∀ op, ev ≠ .launcher op) ∧
    ((runAutomatedWorkflow cfg env).1.rid = env.requestId) ∧
    (∀ rid r, (runAutomatedWorkflow cfg env).1 = .success rid r →
      env.readResult = some r ∧ env.waitOk = true ∧
      pyTruthy cfg.auto_launch_desktop = true) ∧
    (∀ res : WorkflowResult, (runAutomatedWorkflow cfg env).1 = res →
      (∃ rid, res = .manualMode rid) ∨ (∃ rid, res = .timedOut rid) ∨
      (∃ rid r, res = .success rid r)) := by
  refine ⟨?_, ?_, ?_, ?_⟩
  · intro h
    refine ⟨by simp [runAutomatedWorkflow, h], ?_⟩
    simp only [runAutomatedWorkflow, h, Bool.false_eq_true, if_false]
    intro ev hev op
    rcases List.mem_cons.mp hev with h1 | h1
    · subst h1; intro hcontra; exact WorkflowEvent.noConfusion hcontra
    · rcases List.mem_cons.mp h1 with h2 | h2
      · subst h2; intro hcontra; exact WorkflowEvent.noConfusion hcontra
      · exact absurd h2 (List.not_mem_nil ev)
  · cases hauto : pyTruthy cfg.auto_launch_desktop <;>
      cases hl : env.launchRetryOk <;>
      cases hw : env.waitOk <;>
      cases hr : env.readResult <;>
      simp [runAutomatedWorkflow, hauto, hl, hw, hr, WorkflowResult.rid]
  · cases hauto : pyTruthy cfg.auto_launch_desktop <;>
      cases hl : env.launchRetryOk <;>
      cases hw : env.waitOk <;>
      cases hr : env.readResult <;>
      simp [runAutomatedWorkflow, hauto, hl, hw, hr]
  · intro res _
    cases res with
    | manualMode rid => exact Or.inl ⟨rid, rfl⟩
    | timedOut rid => exact Or.inr (Or.inl ⟨rid, rfl⟩)
    | success rid r => exact Or.inr (Or.inr ⟨rid, r, rfl⟩)

/-- C6 witness: with auto_launch_desktop set to False and a concrete
environment, the workflow returns manual_mode with the request id and a
trace containing no launcher call. -/
theorem run_automated_workflow_spec_witness :
    runAutomatedWorkflow { defaultConfig with auto_launch_desktop := .pbool false }
        ⟨"req_1", [.launchApp], true, true, some "resp"⟩ =
      (.manualMode "req_1", [.createRequest, .showInstructions]) :=
  ((run_automated_workflow_spec
      { defaultConfig with auto_launch_desktop := .pbool false }
      ⟨"req_1", [.launchApp], true, true, some "resp"⟩).1 rfl).1

/-- C9 counterexample. The claim says an existing target file is always
backed up before being overwritten. Concretely: the target proj/a.py
exists with content "old", the backup write raises (create_backup's own
except clause swallows the exception and returns None), the overwrite
still proceeds: the call returns True, the effect trace holds no backup
write, the backup path holds nothing, and the target now holds "new" —
the old content was overwritten without ever being backed up. -/
theorem apply_code_file_counterexample :
    ("bk" ++ "/" ++ backupFileName "proj/a.py" "20240101" = "bk/a_20240101.py") ∧
    ((fun p => if p = "proj/a.py" then some "old" else none : FileSys) "proj/a.py"
      = some "old") ∧
    (applyCodeFile defaultConfig (fun p => p == "bk/a_20240101.py") "bk"
        (fun p => if p = "proj/a.py" then some "old" else none)
        "proj/a.py" "new" "20240101").1 = true ∧
    (applyCodeFile defaultConfig (fun p => p == "bk/a_20240101.py") "bk"
        (fun p => if p = "proj/a.py" then some "old" else none)
        "proj/a.py" "new" "20240101").2.1 "bk/a_20240101.py" = none ∧
    (applyCodeFile defaultConfig (fun p => p == "bk/a_20240101.py") "bk"
        (fun p => if p = "proj/a.py" then some "old" else none)
        "proj/a.py" "new" "20240101").2.2 =
      [.mkdirParents "proj/a.py", .write "proj/a.py" "new"] ∧
    (applyCodeFile defaultConfig (fun p => p == "bk/a_20240101.py") "bk"
        (fun p => if p = "proj/a.py" then some "old" else none)
        "proj/a.py" "new" "20240101").2.1 "proj/a.py" = some "new" := by
  decide

/-- C9 amended: apply_code_file never consults the create_backups flag —
two configs differing only in create_backups produce identical results,
filesystem states and effect traces — and a backup of an existing target
is attempted unconditionally, but only best-effort: when the backup write
does not raise, the old content reaches the timestamped backup path with
the backup write first in the effect trace and the call returns True;
when the backup write raises, create_backup swallows the exception and
the overwrite still proceeds (no backup in the trace, target overwritten,
True returned). -/
theorem apply_code_file_best_effort_backup (c1 c2 : AutomationConfig)
    (hsame : c1.enabled = c2.enabled ∧ c1.auto_launch_desktop = c2.auto_launch_desktop ∧
      c1.desktop_app_name = c2.desktop_app_name ∧ c1.launch_timeout = c2.launch_timeout ∧
      c1.response_timeout = c2.response_timeout ∧ c1.polling_interval = c2.polling_interval ∧
      c1.auto_execute_proposals = c2.auto_execute_proposals ∧ c1.max_retries = c2.max_retries)
    (writeRaises : String → Bool) (backupDir : String) (fs : FileSys)
    (filePath content timestamp : String) :
    applyCodeFile c1 writeRaises backupDir fs filePath content timestamp =
      applyCodeFile c2 writeRaises backupDir fs filePath content timestamp ∧
    (∀ old, fs filePath = some old →
      writeRaises (backupDir ++ "/" ++ backupFileName filePath timestamp) = false →
      writeRaises filePath = false →
      backupDir ++ "/" ++ backupFileName filePath timestamp ≠ filePath →
      ((applyCodeFile c1 writeRaises backupDir fs filePath content timestamp).2.1
          (backupDir ++ "/" ++ backupFileName filePath timestamp) = some old ∧
       (applyCodeFile c1 writeRaises backupDir fs filePath content timestamp).2.2 =
         [.write (backupDir ++ "/" ++ backupFileName filePath timestamp) old,
          .mkdirParents filePath, .write filePath content] ∧
       (applyCodeFile c1 writeRaises backupDir fs filePath content timestamp).1 = true)) ∧
    (∀ old, fs filePath = some old →
      writeRaises (backupDir ++ "/" ++ backupFileName filePath timestamp) = true →
      writeRaises filePath = false →
      ((applyCodeFile c1 writeRaises backupDir fs filePath content timestamp).1 = true ∧
       (applyCodeFile c1 writeRaises backupDir fs filePath content timestamp).2.2 =
         [.mkdirParents filePath, .write filePath content] ∧
       (applyCodeFile c1 writeRaises backupDir fs filePath content timestamp).2.1 filePath
         = some content)) := by
  refine ⟨rfl, ?_, ?_⟩
  · intro old hold hbok htok hne
    refine ⟨?_, ?_, ?_⟩
    · simp [applyCodeFile, fsExists, hold, createBackup, fsWrite, hbok, htok, hne]
    · simp [applyCodeFile, fsExists, hold, createBackup, hbok, htok]
    · simp [applyCodeFile, fsExists, hold, createBackup, hbok, htok]
  · intro old hold hbr htok
    refine ⟨?_, ?_, ?_⟩
    · simp [applyCodeFile, fsExists, hold, createBackup, hbr, htok]
    · simp [applyCodeFile, fsExists, hold, createBackup, hbr, htok]
    · simp [applyCodeFile, fsExists, hold, createBackup, fsWrite, hbr, htok]

/-- C9 witness: with the default config and the same config with
create_backups = False, and no write failing, applying content to an
existing file gives identical outcomes for both configs and the old
content sits at the backup path. -/
theorem apply_code_file_best_effort_backup_witness :
    (applyCodeFile defaultConfig (fun _ => false) "bk"
        (fun p => if p = "proj/a.py" then some "old" else none)
        "proj/a.py" "new" "20240101").2.1
      ("bk" ++ "/" ++ backupFileName "proj/a.py" "20240101") = some "old" ∧
    applyCodeFile defaultConfig (fun _ => false) "bk"
        (fun p => if p = "proj/a.py" then some "old" else none)
        "proj/a.py" "new" "20240101" =
      applyCodeFile { defaultConfig with create_backups := .pbool false } (fun _ => false)
        "bk" (fun p => if p = "proj/a.py" then some "old" else none)
        "proj/a.py" "new" "20240101" := by
  have h := apply_code_file_best_effort_backup defaultConfig
    { defaultConfig with create_backups := .pbool false }
    ⟨rfl, rfl, rfl, rfl, rfl, rfl, rfl, rfl⟩ (fun _ => false) "bk"
    (fun p => if p = "proj/a.py" then some "old" else none) "proj/a.py" "new" "20240101"
  exact ⟨(h.2.1 "old" rfl rfl rfl (by decide)).1, h.1⟩

lemma restoreLoop_ok (br : String → Option String) (wr : String → Bool) :
    ∀ (l : List ManifestEntry) (fs : FileSys),
      (∀ e ∈ l, wr e.original_path = false) → (restoreLoop br wr l fs).2 = true := by
  intro l
  induction l with
  | nil => intro fs _; rfl
  | cons e rest ih =>
    intro fs hok
    have he : wr e.original_path = false := hok e (List.mem_cons_self e rest)
    cases hb : br e.backup_name with
    | none =>
      simp only [restoreLoop, hb]
      exact ih fs (fun x hx => hok x (List.mem_cons_of_mem e hx))
    | some content =>
      simp only [restoreLoop, hb, he, Bool.false_eq_true, if_false]
      exact ih _ (fun x hx => hok x (List.mem_cons_of_mem e hx))

lemma restoreLoop_preserve (br : String → Option String) (wr : String → Bool) :
    ∀ (l : List ManifestEntry) (fs : FileSys) (q : String),
      (∀ e ∈ l, e.original_path ≠ q) → (restoreLoop br wr l fs).1 q = fs q := by
  intro l
  induction l with
  | nil => intro fs q _; rfl
  | cons e rest ih =>
    intro fs q hq
    have he : e.original_path ≠ q := hq e (List.mem_cons_self e rest)
    have hrest : ∀ x ∈ rest, x.original_path ≠ q :=
      fun x hx => hq x (List.mem_cons_of_mem e hx)
    cases hb : br e.backup_name with
    | none => simp only [restoreLoop, hb]; exact ih fs q hrest
    | some content =>
      cases hw : wr e.original_path with
      | true => simp [restoreLoop, hb, hw]
      | false =>
        simp only [restoreLoop, hb, hw, Bool.false_eq_true, if_false]
        rw [ih _ q hrest]
        simp only [fsWrite]
        exact if_neg (fun h => he h.symm)

lemma restoreLoop_restores (br : String → Option String) (wr : String → Bool) :
    ∀ (l : List ManifestEntry) (fs : FileSys),
      (∀ e ∈ l, wr e.original_path = false) →
      (l.map ManifestEntry.original_path).Pairwise (· ≠ ·) →
      ∀ e ∈ l, ∀ c, br e.backup_name = some c →
        (restoreLoop br wr l fs).1 e.original_path = some c := by
  intro l
  induction l with
  | nil => intro fs _ _ e he; exact absurd he (List.not_mem_nil e)
  | cons e0 rest ih =>
    intro fs hok hdist e he c hc
    have hok0 : wr e0.original_path = false := hok e0 (List.mem_cons_self e0 rest)
    have hokr : ∀ x ∈ rest, wr x.original_path = false :=
      fun x hx => hok x (List.mem_cons_of_mem e0 hx)
    rw [List.map_cons, List.pairwise_cons] at hdist
    rcases List.mem_cons.mp he with he0 | her
    · subst he0
      simp only [restoreLoop, hc, hok0, Bool.false_eq_true, if_false]
      rw [restoreLoop_preserve br wr rest (fsWrite fs e.original_path c) e.original_path
        (fun x hx => (hdist.1 x.original_path (List.mem_map_of_mem _ hx)).symm)]
      simp [fsWrite]
    · cases hb : br e0.backup_name with
      | none =>
        simp only [restoreLoop, hb]
        exact ih fs hokr hdist.2 e her c hc
      | some c0 =>
        simp only [restoreLoop, hb, hok0, Bool.false_eq_true, if_false]
        exact ih _ hokr hdist.2 e her c hc

lemma restoreLoop_abort (br : String → Option String) (wr : String → Bool) :
    ∀ (l : List ManifestEntry) (fs : FileSys),
      (∃ e ∈ l, (br e.backup_name).isSome = true ∧ wr e.original_path = true) →
      (restoreLoop br wr l fs).2 = false := by
  intro l
  induction l with
  | nil => rintro fs ⟨e, he, -⟩; exact absurd he (List.not_mem_nil e)
  | cons e0 rest ih =>
    rintro fs ⟨e, he, hbs, hwr⟩
    cases hb : br e0.backup_name with
    | none =>
      simp only [restoreLoop, hb]
      rcases List.mem_cons.mp he with he0 | her
      · subst he0; rw [hb] at hbs; exact absurd hbs (by simp)
      · exact ih fs ⟨e, her, hbs, hwr⟩
    | some c0 =>
      cases hw : wr e0.original_path with
      | true => simp [restoreLoop, hb, hw]
      | false =>
        simp only [restoreLoop, hb, hw, Bool.false_eq_true, if_false]
        rcases List.mem_cons.mp he with he0 | her
        · subst he0; rw [hw] at hwr; exact Bool.noConfusion hwr
        · exact ih _ ⟨e, her, hbs, hwr⟩

lemma deleteLoop_sub (dr : String → Bool) :
    ∀ (l : List String) (fs : FileSys) (q : String),
      (deleteLoop dr l fs).1 q = fs q ∨ (deleteLoop dr l fs).1 q = none := by
  intro l
  induction l with
  | nil => intro fs q; exact Or.inl rfl
  | cons p rest ih =>
    intro fs q
    cases hex : fsExists fs p with
    | false => simp only [deleteLoop, hex, Bool.false_eq_true, if_false]; exact ih fs q
    | true =>
      cases hd : dr p with
      | true => simp [deleteLoop, hex, hd]
      | false =>
        simp only [deleteLoop, hex, if_true, hd, Bool.false_eq_true, if_false]
        rcases ih (fsRemove fs p) q with h | h
        · rw [h]
          by_cases hqp : q = p
          · subst hqp; simp [fsRemove]
          · simp [fsRemove, hqp]
        · exact Or.inr h

lemma deleteLoop_preserve (dr : String → Bool) :
    ∀ (l : List String) (fs : FileSys) (q : String),
      q ∉ l → (deleteLoop dr l fs).1 q = fs q := by
  intro l
  induction l with
  | nil => intro fs q _; rfl
  | cons p rest ih =>
    intro fs q hq
    have hqp : q ≠ p := fun h => hq (h ▸ List.mem_cons_self p rest)
    have hqr : q ∉ rest := fun h => hq (List.mem_cons_of_mem p h)
    cases hex : fsExists fs p with
    | false => simp only [deleteLoop, hex, Bool.false_eq_true, if_false]; exact ih fs q hqr
    | true =>
      cases hd : dr p with
      | true => simp [deleteLoop, hex, hd]
      | false =>
        simp only [deleteLoop, hex, if_true, hd, Bool.false_eq_true, if_false]
        rw [ih _ q hqr]
        simp [fsRemove, hqp]

lemma deleteLoop_removes (dr : String → Bool) :
    ∀ (l : List String) (fs : FileSys), (∀ p ∈ l, dr p = false) →
      ∀ p ∈ l, (deleteLoop dr l fs).1 p = none := by
  intro l
  induction l with
  | nil => intro fs _ p hp; exact absurd hp (List.not_mem_nil p)
  | cons p0 rest ih =>
    intro fs hok p hp
    have hok0 : dr p0 = false := hok p0 (List.mem_cons_self p0 rest)
    have hokr : ∀ x ∈ rest, dr x = false := fun x hx => hok x (List.mem_cons_of_mem p0 hx)
    rcases List.mem_cons.mp hp with hp0 | hpr
    · subst hp0
      cases hex : fsExists fs p with
      | true =>
        simp only [deleteLoop, hex, if_true, hok0, Bool.false_eq_true, if_false]
        rcases deleteLoop_sub dr rest (fsRemove fs p) p with h | h
        · rw [h]; simp [fsRemove]
        · exact h
      | false =>
        simp only [deleteLoop, hex, Bool.false_eq_true, if_false]
        have hfs : fs p = none := by
          cases hv : fs p with
          | none => rfl
          | some v => simp [fsExists, hv] at hex
        rcases deleteLoop_sub dr rest fs p with h | h
        · rw [h]; exact hfs
        · exact h
    · cases hex : fsExists fs p0 with
      | true =>
        simp only [deleteLoop, hex, if_true, hok0, Bool.false_eq_true, if_false]
        exact ih _ hokr p hpr
      | false =>
        simp only [deleteLoop, hex, Bool.false_eq_true, if_false]
        exact ih _ hokr p hpr

lemma deleteLoop_ok (dr : String → Bool) :
    ∀ (l : List String) (fs : FileSys), (∀ p ∈ l, dr p = false) →
      (deleteLoop dr l fs).2 = true := by
  intro l
  induction l with
  | nil => intro fs _; rfl
  | cons p0 rest ih =>
    intro fs hok
    have hok0 : dr p0 = false := hok p0 (List.mem_cons_self p0 rest)
    have hokr : ∀ x ∈ rest, dr x = false := fun x hx => hok x (List.mem_cons_of_mem p0 hx)
    cases hex : fsExists fs p0 with
    | true =>
      simp only [deleteLoop, hex, if_true, hok0, Bool.false_eq_true, if_false]
      exact ih _ hokr
    | false =>
      simp only [deleteLoop, hex, Bool.false_eq_true, if_false]
      exact ih _ hokr

/-- C2 counterexample. The claim says a failure while restoring one
manifest entry does not abort the remaining restores or the new-file
deletions, and that the call fails only when the manifest load itself
raises. Concretely: the manifest loads and lists f1 then f2, both backups
exist, and writing f1 raises. The code aborts at f1: f2 keeps its
pre-rollback content "x2" instead of its backup "c2", the existing new
file n1 is not deleted, and the call returns False. -/
theorem rollback_counterexample :
    (rollback true (some ⟨"ts", [⟨"f1", "b1"⟩, ⟨"f2", "b2"⟩]⟩)
        (fun b => if b = "b1" then some "c1" else if b = "b2" then some "c2" else none)
        (fun p => p = "f1") (fun _ => false)
        (fun p => if p = "f1" then some "x1" else if p = "f2" then some "x2"
          else if p = "n1" then some "nx" else none)
        ["n1"]).1 = false ∧
    (rollback true (some ⟨"ts", [⟨"f1", "b1"⟩, ⟨"f2", "b2"⟩]⟩)
        (fun b => if b = "b1" then some "c1" else if b = "b2" then some "c2" else none)
        (fun p => p = "f1") (fun _ => false)
        (fun p => if p = "f1" then some "x1" else if p = "f2" then some "x2"
          else if p = "n1" then some "nx" else none)
        ["n1"]).2 "f2" = some "x2" ∧
    (if ("b2" : String) = "b1" then some "c1" else if "b2" = "b2" then some "c2" else none)
      = some "c2" ∧
    ("x2" : String) ≠ "c2" ∧
    (rollback true (some ⟨"ts", [⟨"f1", "b1"⟩, ⟨"f2", "b2"⟩]⟩)
        (fun b => if b = "b1" then some "c1" else if b = "b2" then some "c2" else none)
        (fun p => p = "f1") (fun _ => false)
        (fun p => if p = "f1" then some "x1" else if p = "f2" then some "x2"
          else if p = "n1" then some "nx" else none)
        ["n1"]).2 "n1" = some "nx" := by
  decide

/-- C2 amended: rollback of a loadable manifest restores entries in
manifest order and then deletes listed new files, but a raise while
restoring any entry (or deleting any new file) escapes to the single
except clause, aborting everything after it and reporting failure; only
when no operation raises does it restore every entry whose backup exists,
delete every existing new file, and return True. -/
theorem rollback_amended (m : Manifest) (backupRead : String → Option String)
    (writeRaises deleteRaises : String → Bool) (fs : FileSys) (newFiles : List String)
    (hdist : (m.files.map ManifestEntry.original_path).Pairwise (· ≠ ·))
    (hnew : ∀ e ∈ m.files, e.original_path ∉ newFiles) :
    ((∀ e ∈ m.files, writeRaises e.original_path = false) →
      (∀ p ∈ newFiles, deleteRaises p = false) →
      (rollback true (some m) backupRead writeRaises deleteRaises fs newFiles).1 = true ∧
      (∀ e ∈ m.files, ∀ c, backupRead e.backup_name = some c →
        (rollback true (some m) backupRead writeRaises deleteRaises fs newFiles).2
          e.original_path = some c) ∧
      (∀ p ∈ newFiles,
        (rollback true (some m) backupRead writeRaises deleteRaises fs newFiles).2 p
          = none)) ∧
    ((∃ e ∈ m.files, (backupRead e.backup_name).isSome = true ∧
        writeRaises e.original_path = true) →
      (rollback true (some m) backupRead writeRaises deleteRaises fs newFiles).1
        = false) := by
  constructor
  · intro hwr hdr
    have hres2 := restoreLoop_ok backupRead writeRaises m.files fs hwr
    have hdel2 := deleteLoop_ok deleteRaises newFiles
      (restoreLoop backupRead writeRaises m.files fs).1 hdr
    have hroll : rollback true (some m) backupRead writeRaises deleteRaises fs newFiles =
        (true, (deleteLoop deleteRaises newFiles
          (restoreLoop backupRead writeRaises m.files fs).1).1) := by
      simp [rollback, hres2, hdel2]
    rw [hroll]
    refine ⟨rfl, ?_, ?_⟩
    · intro e he c hc
      have h1 := restoreLoop_restores backupRead writeRaises m.files fs hwr hdist e he c hc
      have h2 := deleteLoop_preserve deleteRaises newFiles
        (restoreLoop backupRead writeRaises m.files fs).1 e.original_path (hnew e he)
      exact h2.trans h1
    · intro p hp
      exact deleteLoop_removes deleteRaises newFiles _ hdr p hp
  · intro hex
    have h := restoreLoop_abort backupRead writeRaises m.files fs hex
    simp [rollback, h]

/-- C2 witness: the amended theorem at a concrete checkpoint whose single
entry restores cleanly: the rollback succeeds, the file gets its backup
content and the new file is gone. -/
theorem rollback_amended_witness :
    (rollback true (some ⟨"ts", [⟨"f1", "b1"⟩]⟩)
        (fun b => if b = "b1" then some "c1" else none) (fun _ => false) (fun _ => false)
        (fun p => if p = "f1" then some "x1" else if p = "n1" then some "nx" else none)
        ["n1"]).1 = true ∧
    (rollback true (some ⟨"ts", [⟨"f1", "b1"⟩]⟩)
        (fun b => if b = "b1" then some "c1" else none) (fun _ => false) (fun _ => false)
        (fun p => if p = "f1" then some "x1" else if p = "n1" then some "nx" else none)
        ["n1"]).2 "f1" = some "c1" ∧
    (rollback true (some ⟨"ts", [⟨"f1", "b1"⟩]⟩)
        (fun b => if b = "b1" then some "c1" else none) (fun _ => false) (fun _ => false)
        (fun p => if p = "f1" then some "x1" else if p = "n1" then some "nx" else none)
        ["n1"]).2 "n1" = none := by
  have h := (rollback_amended ⟨"ts", [⟨"f1", "b1"⟩]⟩
    (fun b => if b = "b1" then some "c1" else none) (fun _ => false) (fun _ => false)
    (fun p => if p = "f1" then some "x1" else if p = "n1" then some "nx" else none)
    ["n1"] (by decide) (by decide)).1 (fun e _ => rfl) (fun p _ => rfl)
  exact ⟨h.1, h.2.1 ⟨"f1", "b1"⟩ (by decide) "c1" rfl, h.2.2 "n1" (by decide)⟩

lemma charListLe_total : ∀ a b : List Char, charListLe a b = true ∨ charListLe b a = true := by
  intro a
  induction a with
  | nil => intro b; exact Or.inl rfl
  | cons x xs ih =>
    intro b
    cases b with
    | nil => exact Or.inr rfl
    | cons y ys =>
      rcases lt_trichotomy x y with h | h | h
      · exact Or.inl (by simp [charListLe, h])
      · subst h
        rcases ih ys with h2 | h2
        · exact Or.inl (by simp [charListLe, lt_irrefl, h2])
        · exact Or.inr (by simp [charListLe, lt_irrefl, h2])
      · exact Or.inr (by simp [charListLe, h])

lemma charListLe_trans :
    ∀ a b c : List Char, charListLe a b = true → charListLe b c = true →
      charListLe a c = true := by
  intro a
  induction a with
  | nil => intro b c _ _; rfl
  | cons x xs ih =>
    intro b c h1 h2
    cases b with
    | nil => exact absurd h1 (by simp [charListLe])
    | cons y ys =>
      cases c with
      | nil => exact absurd h2 (by simp [charListLe])
      | cons z zs =>
        simp only [charListLe] at h1 h2 ⊢
        by_cases hxy : x < y
        · by_cases hyz : y < z
          · simp [lt_trans hxy hyz]
          · simp only [hyz, if_false] at h2
            by_cases hyz2 : y = z
            · subst hyz2; simp [hxy]
            · simp [hyz2] at h2
        · simp only [hxy, if_false] at h1
          by_cases hxy2 : x = y
          · subst hxy2
            simp only [if_pos rfl] at h1
            by_cases hxz : x < z
            · simp [hxz]
            · simp only [hxz, if_false] at h2 ⊢
              by_cases hxz2 : x = z
              · simp only [hxz2, if_pos rfl] at h2 ⊢
                exact ih ys zs h1 h2
              · simp [hxz2] at h2
          · simp [hxy2] at h1

lemma insertDescM_perm (m : Manifest) :
    ∀ l : List Manifest, (insertDescM m l).Perm (m :: l) := by
  intro l
  induction l with
  | nil => exact List.Perm.refl [m]
  | cons x xs ih =>
    by_cases h : strLe x.timestamp m.timestamp = true
    · simp only [insertDescM, h, if_pos]
      exact List.Perm.refl _
    · simp only [insertDescM, h, if_false]
      exact ((ih.cons x).trans (List.Perm.swap m x xs)).symm.symm

lemma insertDescM_sorted (m : Manifest) :
    ∀ l : List Manifest,
      l.Pairwise (fun a b => strLe b.timestamp a.timestamp = true) →
      (insertDescM m l).Pairwise (fun a b => strLe b.timestamp a.timestamp = true) := by
  intro l
  induction l with
  | nil => intro _; exact List.pairwise_singleton _ m
  | cons x xs ih =>
    intro hs
    rw [List.pairwise_cons] at hs
    by_cases h : strLe x.timestamp m.timestamp = true
    · simp only [insertDescM]
      rw [if_pos h, List.pairwise_cons]
      refine ⟨?_, List.pairwise_cons.mpr hs⟩
      intro b hb
      rcases List.mem_cons.mp hb with hb | hb
      · subst hb; exact h
      · exact charListLe_trans _ _ _ (hs.1 b hb) h
    · simp only [insertDescM]
      rw [if_neg h, List.pairwise_cons]
      refine ⟨?_, ih hs.2⟩
      intro b hb
      have hb2 : b ∈ m :: xs := (insertDescM_perm m xs).mem_iff.mp hb
      rcases List.mem_cons.mp hb2 with hb3 | hb3
      · rw [hb3]
        rcases charListLe_total x.timestamp.data m.timestamp.data with h2 | h2
        · exact absurd h2 h
        · exact h2
      · exact hs.1 b hb3

lemma sortByTimestampDesc_perm :
    ∀ l : List Manifest, (sortByTimestampDesc l).Perm l := by
  intro l
  induction l with
  | nil => exact List.Perm.refl []
  | cons x xs ih =>
    exact (insertDescM_perm x (sortByTimestampDesc xs)).trans (ih.cons x)

lemma sortByTimestampDesc_sorted :
    ∀ l : List Manifest,
      (sortByTimestampDesc l).Pairwise (fun a b => strLe b.timestamp a.timestamp = true) := by
  intro l
  induction l with
  | nil => exact List.Pairwise.nil
  | cons x xs ih => exact insertDescM_sorted x (sortByTimestampDesc xs) ih

lemma listCheckpointsLoop_clean :
    ∀ (entries : List DirEntry) (acc : List Manifest),
      DirEntry.metadata none ∉ entries →
      listCheckpointsLoop entries acc = (acc ++ parsedManifests entries, true) := by
  intro entries
  induction entries with
  | nil => intro acc _; simp [listCheckpointsLoop, parsedManifests]
  | cons e rest ih =>
    intro acc hclean
    have hrest : DirEntry.metadata none ∉ rest :=
      fun h => hclean (List.mem_cons_of_mem e h)
    cases e with
    | notDir =>
      simp only [listCheckpointsLoop, parsedManifests, List.filterMap_cons]
      exact ih acc hrest
    | noMetadata =>
      simp only [listCheckpointsLoop, parsedManifests, List.filterMap_cons]
      exact ih acc hrest
    | metadata parsed =>
      cases parsed with
      | none => exact absurd (List.mem_cons_self _ rest) hclean
      | some m =>
        simp only [listCheckpointsLoop, parsedManifests, List.filterMap_cons]
        rw [ih (acc ++ [m]) hrest]
        simp [parsedManifests]

lemma listCheckpointsLoop_corrupt :
    ∀ (pre : List DirEntry) (post : List DirEntry) (acc : List Manifest),
      DirEntry.metadata none ∉ pre →
      listCheckpointsLoop (pre ++ DirEntry.metadata none :: post) acc =
        (acc ++ parsedManifests pre, false) := by
  intro pre
  induction pre with
  | nil => intro post acc _; simp [listCheckpointsLoop, parsedManifests]
  | cons e rest ih =>
    intro post acc hclean
    have hrest : DirEntry.metadata none ∉ rest :=
      fun h => hclean (List.mem_cons_of_mem e h)
    cases e with
    | notDir =>
      simp only [List.cons_append, listCheckpointsLoop, parsedManifests, List.filterMap_cons]
      exact ih post acc hrest
    | noMetadata =>
      simp only [List.cons_append, listCheckpointsLoop, parsedManifests, List.filterMap_cons]
      exact ih post acc hrest
    | metadata parsed =>
      cases parsed with
      | none => exact absurd (List.mem_cons_self _ rest) hclean
      | some m =>
        simp only [List.cons_append, listCheckpointsLoop, parsedManifests,
          List.filterMap_cons, List.append_eq]
        rw [ih post (acc ++ [m]) hrest]
        simp [parsedManifests]

/-- C8 counterexample. The claim says a corrupt manifest causes only that
checkpoint to be skipped, with the rest still listed and sorted newest
first. Concretely: with a parseable old manifest, then a corrupt one, then
a parseable newer one, the newer one is missing from the result; and with
the corrupt manifest last, the two parsed manifests are returned in
directory order (oldest first), not sorted descending — the raise aborts
the loop and skips the sort. -/
theorem list_checkpoints_counterexample :
    listCheckpoints [DirEntry.metadata (some ⟨"20240101_000000", []⟩),
        DirEntry.metadata none,
        DirEntry.metadata (some ⟨"20240102_000000", []⟩)] =
      [⟨"20240101_000000", []⟩] ∧
    (⟨"20240102_000000", []⟩ : Manifest) ∉
      listCheckpoints [DirEntry.metadata (some ⟨"20240101_000000", []⟩),
        DirEntry.metadata none,
        DirEntry.metadata (some ⟨"20240102_000000", []⟩)] ∧
    listCheckpoints [DirEntry.metadata (some ⟨"20240101_000000", []⟩),
        DirEntry.metadata (some ⟨"20240102_000000", []⟩),
        DirEntry.metadata none] =
      [⟨"20240101_000000", []⟩, ⟨"20240102_000000", []⟩] ∧
    strLe ("20240102_000000" : String) "20240101_000000" = false := by
  decide

/-- C8 amended: when every directory's manifest parses, list_checkpoints
returns all of them sorted by timestamp descending (newest first); but a
corrupt manifest raises out of the enumeration loop, so the function
instead returns only the manifests collected before it, in directory
order, without sorting. -/
theorem list_checkpoints_amended (entries : List DirEntry) :
    (DirEntry.metadata none ∉ entries →
      listCheckpoints entries = sortByTimestampDesc (parsedManifests entries) ∧
      (listCheckpoints entries).Perm (parsedManifests entries) ∧
      (listCheckpoints entries).Pairwise
        (fun a b => strLe b.timestamp a.timestamp = true)) ∧
    (∀ pre post, entries = pre ++ DirEntry.metadata none :: post →
      DirEntry.metadata none ∉ pre →
      listCheckpoints entries = parsedManifests pre) := by
  constructor
  · intro hclean
    have h := listCheckpointsLoop_clean entries [] hclean
    have heq : listCheckpoints entries = sortByTimestampDesc (parsedManifests entries) := by
      simp [listCheckpoints, h]
    refine ⟨heq, ?_, ?_⟩
    · rw [heq]; exact sortByTimestampDesc_perm _
    · rw [heq]; exact sortByTimestampDesc_sorted _
  · intro pre post hent hclean
    subst hent
    have h := listCheckpointsLoop_corrupt pre post [] hclean
    simp [listCheckpoints, h]

/-- C8 witness: the amended theorem at a two-checkpoint directory whose
manifests both parse: the result is the two manifests newest first. -/
theorem list_checkpoints_amended_witness :
    listCheckpoints [DirEntry.metadata (some ⟨"20240101_000000", []⟩),
        DirEntry.metadata (some ⟨"20240102_000000", []⟩)] =
      sortByTimestampDesc (parsedManifests
        [DirEntry.metadata (some ⟨"20240101_000000", []⟩),
         DirEntry.metadata (some ⟨"20240102_000000", []⟩)]) :=
  ((list_checkpoints_amended
    [DirEntry.metadata (some ⟨"20240101_000000", []⟩),
     DirEntry.metadata (some ⟨"20240102_000000", []⟩)]).1 (by decide)).1

/-- C10: ProposalExecutor.execute_step returns True unconditionally for
every step and position, so execute_all_steps always returns exactly
len(steps) True values and its abort-on-first-failure branch is
unreachable. -/
theorem execute_all_steps_all_true (steps : List Step) :
    (∀ s c t, executeStep s c t = true) ∧
    executeAllSteps steps = List.replicate steps.length true := by
  refine ⟨fun _ _ _ => rfl, ?_⟩
  have h : ∀ (total : Nat) (l : List Step) (i : Nat),
      executeStepsLoop total l i = List.replicate l.length true := by
    intro total l
    induction l with
    | nil => intro i; rfl
    | cons s rest ih =>
      intro i
      simp [executeStepsLoop, executeStep, ih, List.replicate_succ]
  exact h steps.length steps 1

end ClaudeBridge
